import Mathlib

/-
Verification of the `soylent_red_division` engines: a shallow embedding of
`memory_manager.py`, `knowledge_manager.py`, `reasoning_engine.py` and
`validation_engine.py`, with theorems settling the behavioural claims about
them.  Python floats only ever carry exact small integer values in the code
modelled here, so scores are embedded as `Int`; `uuid4()` identifiers and
`datetime.now()` stamps are nondeterministic environment inputs and are
passed in as explicit parameters.
-/

namespace SoylentRed

/-! ### Shared string helpers

Python's `in` operator on strings (substring test), `str.lower`, and
`pathlib.Path.parts` are modelled on explicit character lists so that every
definition evaluates by kernel reduction. -/

/-- Character-list version of `str.startswith`. -/
def chPrefixB : List Char → List Char → Bool
  | [], _ => true
  | _ :: _, [] => false
  | a :: as, b :: bs => a == b && chPrefixB as bs

/-- Character-list version of Python's `needle in hay` substring test. -/
def chSubB (needle : List Char) : List Char → Bool
  | [] => chPrefixB needle []
  | c :: rest => chPrefixB needle (c :: rest) || chSubB needle rest

/-- `needle in hay` on strings. -/
def strSub (needle hay : String) : Bool :=
  chSubB needle.data hay.data

/-- `str.lower`.  `Char.toLower` handles the ASCII range, which is all the
code's patterns and path components use. -/
def lowerStr (s : String) : String :=
  ⟨s.data.map Char.toLower⟩

/-- Split a character list on `/`. -/
def splitSlashAux (cur : List Char) : List Char → List (List Char)
  | [] => [cur.reverse]
  | c :: rest =>
    if c = '/' then cur.reverse :: splitSlashAux [] rest
    else splitSlashAux (c :: cur) rest

/-- `pathlib.Path(p).parts` for the relative POSIX paths the knowledge scanner
produces: the path split on `/` with empty and `.` components dropped. -/
def pathParts (p : String) : List String :=
  ((splitSlashAux [] p.data).map (fun l => String.mk l)).filter
    (fun s => !(s == "") && !(s == "."))

/-! ### validation_engine.py: enums, issues and the overall assessment -/

/-- `ValidationSeverity` (validation_engine.py). -/
inductive ValidationSeverity
  | critical
  | high
  | medium
  | low
  | info
deriving DecidableEq, Repr, Fintype

/-- `ValidationStatus` (validation_engine.py). -/
inductive ValidationStatus
  | passed
  | failed
  | warning
  | requiresReview
deriving DecidableEq, Repr, Fintype

/-- `ValidationType` (validation_engine.py). -/
inductive ValidationType
  | brandVoice
  | authenticity
  | personaAlignment
  | ethicalIntegration
  | transparencyType
  | qualityStandards
  | templateCompliance
  | prohibitedLanguage
deriving DecidableEq, Repr, Fintype

/-- `ValidationIssue` (validation_engine.py), keeping the fields the verified
code paths read; `id`, `location`, `detected_at` and `metadata` are
environment-dependent values no modelled claim depends on. -/
structure ValidationIssue where
  validationType : ValidationType
  severity : ValidationSeverity
  status : ValidationStatus
  message : String
  description : String
  suggestions : List String
  autoFixable : Bool
deriving DecidableEq, Repr

/-- Count of issues at one severity, as used by
`ValidationEngine._calculate_overall_assessment`. -/
def countSev (issues : List ValidationIssue) (s : ValidationSeverity) : Int :=
  (issues.countP (fun i => i.severity == s) : Int)

/-- `ValidationEngine._calculate_overall_assessment` (validation_engine.py
lines 732-764).  The Python float score only takes exact integer values in
0..100, embedded as `Int`. -/
def calculateOverallAssessment (issues : List ValidationIssue) :
    ValidationStatus × Int :=
  if issues.isEmpty then (.passed, 100)
  else
    let criticalCount := countSev issues .critical
    let highCount := countSev issues .high
    let mediumCount := countSev issues .medium
    let lowCount := countSev issues .low
    let score : Int :=
      100 - criticalCount * 25 - highCount * 15 - mediumCount * 8 - lowCount * 3
    let score := max 0 score
    let status : ValidationStatus :=
      if 0 < criticalCount then .failed
      else if 2 < highCount then .failed
      else if 0 < highCount || 3 < mediumCount then .warning
      else if 0 < mediumCount || 0 < lowCount then .requiresReview
      else .passed
    (status, score)

/-- A concrete INFO-severity issue used as a witness input. -/
def sampleInfoIssue : ValidationIssue :=
  { validationType := .brandVoice, severity := .info, status := .passed,
    message := "note", description := "informational note",
    suggestions := [], autoFixable := false }

/-! ### knowledge_manager.py: types, access matrix, path heuristic, search -/

/-- `KnowledgeType` (knowledge_manager.py). -/
inductive KnowledgeType
  | brandFoundation
  | personas
  | writingExamples
  | templates
  | userPreferences
  | contextual
deriving DecidableEq, Repr, Fintype

/-- `KnowledgeStatus` (knowledge_manager.py). -/
inductive KnowledgeStatus
  | active
  | deprecated
  | draft
  | archived
deriving DecidableEq, Repr, Fintype

/-- `KnowledgeItem` (knowledge_manager.py), keeping the fields read by the
verified code paths; `last_modified`, `version`, `dependencies`, `metadata`
and `content_hash` are environment values no modelled claim depends on. -/
structure KnowledgeItem where
  id : String
  knowledgeType : KnowledgeType
  title : String
  content : String
  filePath : String
  tags : List String
  status : KnowledgeStatus
deriving DecidableEq, Repr

/-- `KnowledgeManager._determine_knowledge_type` (knowledge_manager.py
lines 241-257): assign a type from the file path. -/
def determineKnowledgeType (filePath : String) : KnowledgeType :=
  let parts := pathParts filePath
  if parts.contains "brand" then
    if strSub "brand-foundation" filePath then .brandFoundation
    else .personas
  else if parts.contains "examples" then .writingExamples
  else if parts.contains "templates" then .templates
  else if strSub "user_preference" filePath then .userPreferences
  else .contextual

/-- The per-role permission lists of `KnowledgeAccessControl.access_matrix`
(knowledge_manager.py lines 90-125). -/
def knowledgePerms (role : String) : Option (KnowledgeType → List String) :=
  if role = "brand_author" then some (fun kt =>
    match kt with
    | .brandFoundation => ["read", "write", "version"]
    | .personas => ["read", "write", "version"]
    | .writingExamples => ["read", "write", "version"]
    | .templates => ["read", "write", "version"]
    | .userPreferences => ["read", "write"]
    | .contextual => ["read", "write"])
  else if role = "writer" then some (fun kt =>
    match kt with
    | .brandFoundation => ["read"]
    | .personas => ["read"]
    | .writingExamples => ["read"]
    | .templates => ["read"]
    | .userPreferences => ["read"]
    | .contextual => ["read", "write"])
  else if role = "editor" then some (fun kt =>
    match kt with
    | .brandFoundation => ["read"]
    | .personas => ["read"]
    | .writingExamples => ["read"]
    | .templates => ["read"]
    | .userPreferences => ["read"]
    | .contextual => ["read"])
  else if role = "researcher" then some (fun kt =>
    match kt with
    | .brandFoundation => ["read"]
    | .personas => ["read"]
    | .writingExamples => ["read"]
    | .templates => ["read"]
    | .userPreferences => []
    | .contextual => ["read"])
  else none

/-- `KnowledgeAccessControl.can_access` (knowledge_manager.py lines 126-133). -/
def canAccessKnowledge (role : String) (kt : KnowledgeType) (op : String) : Bool :=
  match knowledgePerms role with
  | none => false
  | some perms => (perms kt).contains op

/-- The knowledge types in the dictionary insertion order of the matrix. -/
def allKnowledgeTypes : List KnowledgeType :=
  [.brandFoundation, .personas, .writingExamples, .templates,
   .userPreferences, .contextual]

/-- `KnowledgeAccessControl.get_accessible_types` (knowledge_manager.py
lines 135-139): types whose permission list is non-empty. -/
def getAccessibleTypes (role : String) : List KnowledgeType :=
  match knowledgePerms role with
  | none => []
  | some perms => allKnowledgeTypes.filter (fun kt => !(perms kt).isEmpty)

/-- The relevance score closure inside `KnowledgeManager.search_knowledge`
(knowledge_manager.py lines 384-393). -/
def relevanceScore (query : String) (item : KnowledgeItem) : Nat :=
  (if strSub (lowerStr query) (lowerStr item.title) then 3 else 0) +
  (if strSub (lowerStr query) (lowerStr item.content) then 1 else 0) +
  (if item.tags.any (fun t => lowerStr t == lowerStr query) then 2 else 0)

/-- The filtering loop of `KnowledgeManager.search_knowledge`: an item is
collected when its type is accessible (and selected, when a type list is
given), it is not archived, it passes the tag filter, and the lowercased
query occurs in its lowercased title or content.  An empty `tags` list models
Python's falsy `None`/`[]` defaults. -/
def searchPred (role : String) (query : String)
    (knowledgeTypes : Option (List KnowledgeType)) (tags : List String)
    (item : KnowledgeItem) : Bool :=
  let accessible := getAccessibleTypes role
  let accessible := match knowledgeTypes with
    | some kts => accessible.filter (fun kt => kts.contains kt)
    | none => accessible
  accessible.contains item.knowledgeType &&
  !(item.status == .archived) &&
  (tags.isEmpty || tags.any (fun t => item.tags.contains t)) &&
  (strSub (lowerStr query) (lowerStr item.title) ||
   strSub (lowerStr query) (lowerStr item.content))

/-- `KnowledgeManager.search_knowledge` (knowledge_manager.py lines 355-396):
filter, stable-sort by descending relevance, truncate to `limit`.  The
manager's `knowledge_items.values()` view is passed in as `items`. -/
def searchKnowledge (items : List KnowledgeItem) (role : String)
    (query : String) (knowledgeTypes : Option (List KnowledgeType))
    (tags : List String) (limit : Nat) : List KnowledgeItem :=
  let results := items.filter (searchPred role query knowledgeTypes tags)
  (results.insertionSort
    (fun a b => relevanceScore query b ≤ relevanceScore query a)).take limit

/-- A concrete active contextual item used as a witness input. -/
def sampleKnowledgeItem : KnowledgeItem :=
  { id := "k1", knowledgeType := .contextual, title := "alpha x",
    content := "body", filePath := "context/alpha.md", tags := ["alpha"],
    status := .active }

/-! ### reasoning_engine.py: the content-structure decision -/

/-- `ReasoningType` (reasoning_engine.py). -/
inductive ReasoningType
  | sequential
  | parallelType
  | conditional
  | iterative
deriving DecidableEq, Repr, Fintype

/-- `ReasoningContext` (reasoning_engine.py), keeping the two fields
`_decide_content_structure` reads; `content_requirements` values are the
strings the decision matrix keys on. -/
structure ReasoningContext where
  contentRequirements : List (String × String)
  targetPersonas : List String
deriving DecidableEq, Repr

/-- Python `dict.get(key, default)` on an association list. -/
def dictGet (d : List (String × String)) (key default : String) : String :=
  match d.find? (fun kv => kv.1 == key) with
  | some kv => kv.2
  | none => default

/-- `DecisionFramework.content_structure_matrix` (reasoning_engine.py
lines 219-226): the static lookup table keyed on the content-type string. -/
def contentStructureMatrix (contentType : String) :
    Option (ReasoningType × String) :=
  if contentType = "guide" then some (.sequential, "step_by_step")
  else if contentType = "analysis" then some (.parallelType, "comparative")
  else if contentType = "narrative" then some (.iterative, "storytelling")
  else if contentType = "reference" then some (.conditional, "reference")
  else if contentType = "tutorial" then some (.sequential, "instructional")
  else none

/-- The result record of `DecisionFramework._decide_content_structure`. -/
structure StructureDecision where
  decision : String
  structureType : String
  reasoningType : ReasoningType
  template : String
  depth : String
  confidence : ℚ
deriving DecidableEq, Repr

/-- `DecisionFramework._decide_content_structure` (reasoning_engine.py
lines 236-260).  The source's `matrix.get(ct, matrix['guide'])` default is
the guide row; the persona-dependent depth is computed directly here instead
of through the source's in-place mutation of the shared row dictionary, which
only affects the `depth` key. -/
def decideContentStructure (ctx : ReasoningContext) : StructureDecision :=
  let contentType := dictGet ctx.contentRequirements "type" "guide"
  let structureInfo :=
    (contentStructureMatrix contentType).getD (.sequential, "step_by_step")
  let depth :=
    if ctx.targetPersonas.contains "Strategic Sofia" then "strategic"
    else if ctx.targetPersonas.contains "Adaptive Alex" then "practical"
    else if ctx.targetPersonas.contains "Curious Casey" then "foundational"
    else "balanced"
  { decision := "content_structure", structureType := contentType,
    reasoningType := structureInfo.1, template := structureInfo.2,
    depth := depth, confidence := 85 / 100 }

/-! ### memory_manager.py: entries, access control, store and consolidation

Timestamps are seconds as `Int` (`datetime` differences of
`timedelta(days=d)` become `d * 86400`); `uuid4()` identifiers are `Nat`
parameters supplied by the caller. -/

/-- `MemoryType` (memory_manager.py). -/
inductive MemoryType
  | crewShared
  | agentSpecific
  | externalConsolidated
  | sessionTemporary
deriving DecidableEq, Repr, Fintype

/-- `MemoryAccessLevel` (memory_manager.py). -/
inductive MemoryAccessLevel
  | readOnly
  | readWrite
  | adminLevel
deriving DecidableEq, Repr, Fintype

/-- Memory payloads: either a caller-supplied record or the summary dictionary
produced by `_consolidate_similar_memories` (its `consolidation_type`,
`original_count`, `consolidated_summary` and `common_patterns` keys; the
`consolidation_timestamp` is the entry timestamp). -/
inductive MemoryContent
  | user (data : String)
  | consolidatedSummary (consolidationType : String) (originalCount : Nat)
      (summary : String) (commonPatterns : List String)
deriving DecidableEq, Repr

/-- `MemoryEntry` (memory_manager.py). -/
structure MemoryEntry where
  id : Nat
  timestamp : Int
  memoryType : MemoryType
  agentId : String
  content : MemoryContent
  tags : List String
  importance : Int
  accessLevel : MemoryAccessLevel
  consolidationCandidate : Bool := false
deriving DecidableEq, Repr

/-- The per-role levels of `MemoryAccessControl.access_matrix`
(memory_manager.py lines 75-101). -/
def memoryAccessMatrix (role : String) :
    Option (MemoryType → MemoryAccessLevel) :=
  if role = "brand_author" then some (fun mt =>
    match mt with
    | .crewShared => .adminLevel
    | .agentSpecific => .adminLevel
    | .externalConsolidated => .adminLevel
    | .sessionTemporary => .adminLevel)
  else if role = "writer" then some (fun mt =>
    match mt with
    | .crewShared => .readWrite
    | .agentSpecific => .readWrite
    | .externalConsolidated => .readOnly
    | .sessionTemporary => .readWrite)
  else if role = "editor" then some (fun mt =>
    match mt with
    | .crewShared => .readWrite
    | .agentSpecific => .readWrite
    | .externalConsolidated => .readOnly
    | .sessionTemporary => .readOnly)
  else if role = "researcher" then some (fun mt =>
    match mt with
    | .crewShared => .readOnly
    | .agentSpecific => .readWrite
    | .externalConsolidated => .readOnly
    | .sessionTemporary => .readOnly)
  else none

/-- `MemoryAccessControl.can_access` (memory_manager.py lines 103-117).  Each
configured role's dictionary covers every memory type, so the source's
`.get(memory_type, READ_ONLY)` default never fires and the row is total. -/
def canAccess (role : String) (mt : MemoryType) (op : String) : Bool :=
  match memoryAccessMatrix role with
  | none => false
  | some levels =>
    let lvl := levels mt
    if op = "read" then
      lvl == .readOnly || lvl == .readWrite || lvl == .adminLevel
    else if op = "write" then
      lvl == .readWrite || lvl == .adminLevel
    else if op = "admin" then
      lvl == .adminLevel
    else false

/-- The role's access level for a bucket, when the role is configured. -/
def accessLevelOf (role : String) (mt : MemoryType) :
    Option MemoryAccessLevel :=
  (memoryAccessMatrix role).map (fun levels => levels mt)

/-- The roles configured in the access matrix. -/
def matrixRoles : List String :=
  ["brand_author", "writer", "editor", "researcher"]

/-- The in-memory store `self.memories`: one entry list per bucket. -/
abbrev Memories := MemoryType → List MemoryEntry

/-- The store with every bucket empty. -/
def emptyMemories : Memories := fun _ => []

/-- Replace one bucket's list. -/
def updateBucket (mems : Memories) (mt : MemoryType)
    (l : List MemoryEntry) : Memories :=
  fun t => if t = mt then l else mems t

/-- `consolidation_settings['auto_consolidate_threshold']`. -/
def autoConsolidateThreshold : Nat := 100

/-- `consolidation_settings['consolidation_interval_days']` in seconds. -/
def consolidationIntervalSeconds : Int := 7 * 86400

/-- `consolidation_settings['importance_threshold']`. -/
def importanceThreshold : Int := 5

/-- The marking step of `MemoryManager._auto_consolidate` (memory_manager.py
lines 357-372) on one entry: flag it as a consolidation candidate when it is
older than the consolidation interval and below the importance threshold. -/
def autoMark (now : Int) (m : MemoryEntry) : MemoryEntry :=
  if m.timestamp < now - consolidationIntervalSeconds ∧
      m.importance < importanceThreshold then
    { m with consolidationCandidate := true }
  else m

/-- `MemoryManager._auto_consolidate`: mark candidates in a bucket.  It only
marks; no entries are merged or removed here. -/
def autoConsolidate (now : Int) (bucket : List MemoryEntry) :
    List MemoryEntry :=
  bucket.map (autoMark now)

/-- The entry built by `MemoryManager.store_memory`. -/
def mkStoredEntry (now : Int) (newId : Nat) (role : String) (mt : MemoryType)
    (content : MemoryContent) (tags : List String) (importance : Int) :
    MemoryEntry :=
  { id := newId, timestamp := now, memoryType := mt, agentId := role,
    content := content, tags := tags, importance := importance,
    accessLevel := .readWrite }

/-- `MemoryManager.store_memory` (memory_manager.py lines 211-242), returned
as (raised-or-returned result, post-state): the `PermissionError` is raised
before any mutation, so the error branch carries the unchanged store; on
success the entry is appended and, when the bucket then exceeds the
auto-consolidation threshold, `_auto_consolidate` marks candidates. -/
def storeMemory (now : Int) (newId : Nat) (role : String) (mt : MemoryType)
    (content : MemoryContent) (tags : List String) (importance : Int)
    (mems : Memories) : Except String Nat × Memories :=
  if !canAccess role mt "write" then
    (.error "PermissionError", mems)
  else
    let bucket := mems mt ++ [mkStoredEntry now newId role mt content tags importance]
    let bucket :=
      if autoConsolidateThreshold < bucket.length then autoConsolidate now bucket
      else bucket
    (.ok newId, updateBucket mems mt bucket)

/-- A rendering of a memory payload, abstracting the `json.dumps(content)`
string that `_matches_query` searches. -/
def renderContent : MemoryContent → String
  | .user s => s
  | .consolidatedSummary ct n s ps =>
    ct ++ " " ++ toString n ++ " " ++ s ++ " " ++ String.intercalate " " ps

/-- `MemoryManager._matches_query` (memory_manager.py lines 268-271). -/
def matchesQuery (content : MemoryContent) (queryLower : String) : Bool :=
  strSub queryLower (lowerStr (renderContent content))

/-- Descending (importance, timestamp) order used by
`retrieve_memory`'s `sort(key=..., reverse=True)`. -/
def memKeyGe (a b : MemoryEntry) : Prop :=
  b.importance < a.importance ∨
  (b.importance = a.importance ∧ b.timestamp ≤ a.timestamp)

instance : DecidableRel memKeyGe := fun a b => by
  unfold memKeyGe; exact inferInstance

/-- `MemoryManager.retrieve_memory` (memory_manager.py lines 244-266). -/
def retrieveMemory (role : String) (mt : MemoryType) (query : Option String)
    (tags : List String) (limit : Nat) (mems : Memories) :
    Except String (List MemoryEntry) :=
  if !canAccess role mt "read" then .error "PermissionError"
  else
    let ms : List MemoryEntry := mems mt
    let ms : List MemoryEntry :=
      if tags.isEmpty then ms
      else ms.filter (fun m => tags.any (fun t => m.tags.contains t))
    let ms : List MemoryEntry := match query with
      | some q => ms.filter (fun m => matchesQuery m.content (lowerStr q))
      | none => ms
    .ok ((ms.insertionSort memKeyGe).take limit)

/-- Sorted tag list: the `tuple(sorted(memory.tags))` grouping key of
`_consolidate_similar_memories`. -/
def sortTags (tags : List String) : List String :=
  tags.insertionSort (fun a b => a ≤ b)

/-- Add one entry to the group for key `k`, appending a fresh group at the
end when the key is new (Python dict insertion order). -/
def insertGrouped (k : List String) (m : MemoryEntry) :
    List (List String × List MemoryEntry) →
    List (List String × List MemoryEntry)
  | [] => [(k, [m])]
  | (k', g) :: rest =>
    if k = k' then (k', g ++ [m]) :: rest
    else (k', g) :: insertGrouped k m rest

/-- Left fold of `insertGrouped` over the candidate list. -/
def groupByTagsAux (acc : List (List String × List MemoryEntry)) :
    List MemoryEntry → List (List String × List MemoryEntry)
  | [] => acc
  | m :: rest => groupByTagsAux (insertGrouped (sortTags m.tags) m acc) rest

/-- The `groups` dictionary of `_consolidate_similar_memories`
(memory_manager.py lines 416-423): entries keyed by sorted tag tuple. -/
def groupByTags (mems : List MemoryEntry) :
    List (List String × List MemoryEntry) :=
  groupByTagsAux [] mems

/-- `max(m.importance for m in group_memories)`. -/
def maxImportance : List MemoryEntry → Int
  | [] => 0
  | m :: rest => rest.foldl (fun acc x => max acc x.importance) m.importance

/-- `MemoryManager._extract_patterns` (memory_manager.py lines 462-467):
tags occurring more than once across the group.  Python iterates a `set`
in unspecified order; first-occurrence order stands in for it. -/
def extractPatterns (mems : List MemoryEntry) : List String :=
  let allTags := mems.flatMap (fun m => m.tags)
  allTags.dedup.filter (fun t => 1 < allTags.count t)

/-- The summary entry built for a group of two or more candidates inside
`_consolidate_similar_memories` (memory_manager.py lines 428-449), with
`_create_summary`'s text inlined. -/
def mkConsolidated (now : Int) (newId : Nat) (tagGroup : List String)
    (groupMems : List MemoryEntry) : MemoryEntry :=
  { id := newId, timestamp := now,
    memoryType := (match groupMems with
      | [] => MemoryType.crewShared
      | m :: _ => m.memoryType),
    agentId := "system_consolidation",
    content := .consolidatedSummary "similar_memories" groupMems.length
      ("Consolidated " ++ toString groupMems.length ++ " memories with common patterns")
      (extractPatterns groupMems),
    tags := tagGroup ++ ["consolidated"],
    importance := maxImportance groupMems,
    accessLevel := .readOnly }

/-- `MemoryManager._consolidate_similar_memories` (memory_manager.py
lines 413-454): group candidates by sorted tag tuple, replace each group of
two or more by one summary entry, keep singleton groups as they are. -/
def consolidateSimilarMemories (now : Int) (newId : Nat)
    (mems : List MemoryEntry) : List MemoryEntry :=
  (groupByTags mems).flatMap (fun g =>
    if 1 < g.2.length then [mkConsolidated now newId g.1 g.2] else g.2)

/-- Well-formed grouping state: every group is non-empty and holds exactly
the entries whose sorted tag list equals its key. -/
def GoodGroups (gs : List (List String × List MemoryEntry)) : Prop :=
  ∀ p ∈ gs, p.2 ≠ [] ∧ ∀ x ∈ p.2, sortTags x.tags = p.1

/-- Entries sharing one tag set, plus one with a unique tag set, used as a
consolidation witness input. -/
def dupEntryA : MemoryEntry :=
  { id := 1, timestamp := 0, memoryType := .crewShared, agentId := "writer",
    content := .user "first", tags := ["a"], importance := 3,
    accessLevel := .readWrite, consolidationCandidate := true }

/-- Second entry sharing `dupEntryA`'s tag set. -/
def dupEntryB : MemoryEntry :=
  { id := 2, timestamp := 0, memoryType := .crewShared, agentId := "writer",
    content := .user "second", tags := ["a"], importance := 7,
    accessLevel := .readWrite, consolidationCandidate := true }

/-- Entry whose tag set no other candidate shares. -/
def uniqueTagEntry : MemoryEntry :=
  { id := 3, timestamp := 0, memoryType := .crewShared, agentId := "writer",
    content := .user "third", tags := ["b"], importance := 4,
    accessLevel := .readWrite, consolidationCandidate := true }

/-- A low-importance old entry used for the C1 counterexample bucket. -/
def staleEntry : MemoryEntry :=
  { id := 0, timestamp := 0, memoryType := .crewShared, agentId := "writer",
    content := .user "note", tags := ["similar"], importance := 3,
    accessLevel := .readWrite }

/-- A crew-shared bucket already holding 100 identically-tagged stale
entries, at the auto-consolidation threshold. -/
def fullMemories : Memories :=
  fun t => if t = .crewShared then List.replicate 100 staleEntry else []

/-! ### validation_engine.py: the EthicalIntegrationValidator

The validator's regexes all have the shape `\b head (.* gap)* (\b)?` over
the lowercased content, modelled by an explicit matcher.  Word characters
follow ASCII `\w`; Python's float `int(start / length * 3)` third-bucket is
the exact `3 * start / length` in `Nat`. -/

/-- A pattern `\b head (.* gap)* (\b)?`: leading word boundary, literal
pieces separated by greedy `.*` gaps, optional trailing word boundary. -/
structure EthPattern where
  head : String
  gaps : List String
  closeB : Bool
deriving DecidableEq, Repr

/-- ASCII `\w`. -/
def isWordChar (c : Char) : Bool :=
  c.isAlphanum || c == '_'

/-- `\b` at position `i`: the word-char status changes across the position. -/
def wordBoundaryAt (cl : List Char) (i : Nat) : Bool :=
  (decide (0 < i) && isWordChar (cl.getD (i - 1) ' ')) !=
  (decide (i < cl.length) && isWordChar (cl.getD i ' '))

/-- The literal occurs at position `j`. -/
def litAt (cl : List Char) (j : Nat) (lit : List Char) : Bool :=
  chPrefixB lit (cl.drop j)

/-- `.` never matches a newline: no `\n` strictly between `pos` and `j`. -/
def noNewlineBetween (cl : List Char) (pos j : Nat) : Bool :=
  ((cl.drop pos).take (j - pos)).all (fun c => !(c == '\n'))

/-- Greedy tail matching after the head literal: each `.* gap` segment takes
the rightmost feasible occurrence (Python's leftmost-greedy backtracking),
then the optional trailing boundary is checked. -/
def matchTail (cl : List Char) (closeB : Bool) :
    List (List Char) → Nat → Option Nat
  | [], pos =>
    if closeB then (if wordBoundaryAt cl pos then some pos else none)
    else some pos
  | g :: rest, pos =>
    (((List.range (cl.length + 1)).filter (fun j =>
        decide (pos ≤ j) && litAt cl j g &&
        noNewlineBetween cl pos j)).reverse).findSome?
      (fun j => matchTail cl closeB rest (j + g.length))

/-- Anchored match attempt of pattern `p` at position `i`, returning the
match end. -/
def matchAt (cl : List Char) (p : EthPattern) (i : Nat) : Option Nat :=
  if wordBoundaryAt cl i && litAt cl i p.head.data then
    matchTail cl p.closeB (p.gaps.map String.data) (i + p.head.data.length)
  else none

/-- `re.finditer` scan from position `i`: non-overlapping (start, end) spans
left to right, resuming after each match's end. -/
def findMatchesFrom (cl : List Char) (p : EthPattern) :
    Nat → Nat → List (Nat × Nat)
  | 0, _ => []
  | fuel + 1, i =>
    if cl.length ≤ i then []
    else
      match matchAt cl p i with
      | some e => (i, e) :: findMatchesFrom cl p fuel (max e (i + 1))
      | none => findMatchesFrom cl p fuel (i + 1)

/-- All matches of `p` in `cl`. -/
def findMatches (p : EthPattern) (cl : List Char) : List (Nat × Nat) :=
  findMatchesFrom cl p (cl.length + 1) 0

/-- The `ethical_patterns` table of `EthicalIntegrationValidator`
(validation_engine.py lines 506-512), flattened in dictionary order; the
category names only feed issue metadata. -/
def ethicalPatterns : List EthPattern :=
  [⟨"bias", [], true⟩, ⟨"fair", [], false⟩, ⟨"equit", [], false⟩,
   ⟨"discriminat", [], false⟩,
   ⟨"inclus", [], false⟩, ⟨"access", [], false⟩, ⟨"diversit", [], false⟩,
   ⟨"equal", [], false⟩,
   ⟨"user", ["control"], true⟩, ⟨"user", ["choice"], true⟩,
   ⟨"user", ["agency"], true⟩,
   ⟨"transpar", [], false⟩, ⟨"open", [], false⟩, ⟨"clear", [], false⟩,
   ⟨"honest", [], false⟩,
   ⟨"responsib", [], false⟩, ⟨"accountab", [], false⟩,
   ⟨"impact", [], false⟩, ⟨"consequence", [], false⟩]

/-- The `afterthought_patterns` list (validation_engine.py lines 514-517). -/
def afterthoughtPatterns : List EthPattern :=
  [⟨"Also", ["ethic"], false⟩, ⟨"Finally", ["ethic"], false⟩,
   ⟨"By the way", ["ethic"], false⟩, ⟨"Oh", ["and", "ethic"], false⟩,
   ⟨"Don\x27t forget", ["ethic"], false⟩]

/-- Message of the clustering warning. -/
def clusterMessage : String :=
  "Ethical considerations clustered in one section"

/-- The HIGH issue emitted when no ethical keyword matches. -/
def noEthicsIssue : ValidationIssue :=
  { validationType := .ethicalIntegration, severity := .high,
    status := .failed, message := "No ethical considerations found",
    description := "Content must integrate ethical considerations throughout",
    suggestions := ["Add bias detection and mitigation considerations",
      "Include accessibility and inclusion aspects",
      "Address user agency and control",
      "Consider potential negative impacts"],
    autoFixable := false }

/-- The MEDIUM issue emitted per afterthought-pattern match. -/
def afterthoughtIssue : ValidationIssue :=
  { validationType := .ethicalIntegration, severity := .medium,
    status := .warning, message := "Ethics appear as afterthought",
    description :=
      "Ethical considerations should be woven throughout, not added at the end",
    suggestions := ["Integrate ethical considerations throughout the content",
      "Address ethics as part of main discussion",
      "Make ethics integral to recommendations"],
    autoFixable := false }

/-- The MEDIUM issue emitted when mentions cluster in one third. -/
def clusteredIssue : ValidationIssue :=
  { validationType := .ethicalIntegration, severity := .medium,
    status := .warning, message := clusterMessage,
    description := "Ethics should be distributed throughout the content",
    suggestions := ["Spread ethical considerations throughout all sections",
      "Address ethics in each major recommendation",
      "Integrate ethics into examples and case studies"],
    autoFixable := false }

/-- All ethical-keyword match spans over the lowercased content, in the
table's pattern order. -/
def ethicalMentions (content : String) : List (Nat × Nat) :=
  ethicalPatterns.flatMap
    (fun p => findMatches p (content.data.map Char.toLower))

/-- The start positions of the ethical-keyword matches. -/
def ethicalMentionStarts (content : String) : List Nat :=
  (ethicalMentions content).map Prod.fst

/-- `EthicalIntegrationValidator.validate_ethical_integration`
(validation_engine.py lines 520-599): the missing-ethics issue, one
afterthought issue per afterthought-pattern match, and the clustering issue
when all mention starts fall into fewer than two distinct thirds. -/
def validateEthicalIntegration (content : String) : List ValidationIssue :=
  let cl := content.data.map Char.toLower
  let mentions := ethicalPatterns.flatMap (fun p => findMatches p cl)
  let missing : List ValidationIssue :=
    if mentions.isEmpty then [noEthicsIssue] else []
  let afterthoughts : List ValidationIssue :=
    afterthoughtPatterns.flatMap
      (fun p => (findMatches p cl).map (fun _ => afterthoughtIssue))
  let clustered : List ValidationIssue :=
    if !mentions.isEmpty &&
        decide ((mentions.map (fun s => 3 * s.1 / cl.length)).dedup.length < 2)
    then [clusteredIssue] else []
  missing ++ afterthoughts ++ clustered

end SoylentRed

namespace SoylentRed

/-- C2: the overall validation score equals
max(0, 100 - 25*critical - 15*high - 8*medium - 3*low), hence always lies in
0..100, and the empty issue list is assessed PASSED with score 100. -/
theorem overall_assessment_score_formula :
    (∀ issues : List ValidationIssue,
      (calculateOverallAssessment issues).2 =
        max 0 (100 - 25 * countSev issues .critical - 15 * countSev issues .high
          - 8 * countSev issues .medium - 3 * countSev issues .low) ∧
      0 ≤ (calculateOverallAssessment issues).2 ∧
      (calculateOverallAssessment issues).2 ≤ 100) ∧
    calculateOverallAssessment [] = (.passed, 100) := by
  have hnn : ∀ (l : List ValidationIssue) (s : ValidationSeverity), 0 ≤ countSev l s := by
    intro l s; exact Int.ofNat_nonneg _
  constructor
  · intro issues
    have hform : (calculateOverallAssessment issues).2 =
        max 0 (100 - 25 * countSev issues .critical - 15 * countSev issues .high
          - 8 * countSev issues .medium - 3 * countSev issues .low) := by
      by_cases h : issues.isEmpty
      · have h' : issues = [] := List.isEmpty_iff.mp h
        subst h'
        simp [calculateOverallAssessment, countSev]
      · simp only [calculateOverallAssessment, h, if_false]
        have : ∀ a b c d : Int,
            100 - a * 25 - b * 15 - c * 8 - d * 3 =
            100 - 25 * a - 15 * b - 8 * c - 3 * d := by intro a b c d; ring
        rw [this]
        simp
    refine ⟨hform, ?_, ?_⟩
    · rw [hform]; exact le_max_left _ _
    · rw [hform]
      have h1 : (100 : Int) - 25 * countSev issues .critical - 15 * countSev issues .high
          - 8 * countSev issues .medium - 3 * countSev issues .low ≤ 100 := by
        have := hnn issues .critical
        have := hnn issues .high
        have := hnn issues .medium
        have := hnn issues .low
        omega
      omega
  · simp [calculateOverallAssessment]

/-- C9: a non-empty issue list in which every issue has severity INFO is
assessed PASSED with score 100: INFO issues never reduce the score or change
the status. -/
theorem info_only_issues_pass (issues : List ValidationIssue)
    (hne : issues ≠ []) (hinfo : ∀ i ∈ issues, i.severity = .info) :
    calculateOverallAssessment issues = (.passed, 100) := by
  have hcount : ∀ s : ValidationSeverity, s ≠ .info → countSev issues s = 0 := by
    intro s hs
    unfold countSev
    have : issues.countP (fun i => i.severity == s) = 0 := by
      rw [List.countP_eq_zero]
      intro i hi
      have := hinfo i hi
      simp [this]
      intro hcontra
      exact hs hcontra.symm
    simp [this]
  have hemp : issues.isEmpty = false := by
    cases issues with
    | nil => exact absurd rfl hne
    | cons a l => rfl
  simp only [calculateOverallAssessment, hemp, Bool.false_eq_true, if_false]
  rw [hcount .critical (by simp), hcount .high (by simp),
    hcount .medium (by simp), hcount .low (by simp)]
  norm_num

/-- Witness for C9 at the concrete one-element INFO issue list. -/
theorem info_only_issues_pass_witness :
    calculateOverallAssessment [sampleInfoIssue] = (.passed, 100) :=
  info_only_issues_pass [sampleInfoIssue] (by simp)
    (by intro i hi; simp at hi; subst hi; rfl)

/-- In the configured knowledge matrix, a type is accessible (non-empty
permission list) exactly when the role may read it. -/
theorem accessible_eq_read (role : String) (kt : KnowledgeType) :
    (getAccessibleTypes role).contains kt = canAccessKnowledge role kt "read" := by
  by_cases h1 : role = "brand_author"
  · subst h1; cases kt <;> decide
  · by_cases h2 : role = "writer"
    · subst h2; cases kt <;> decide
    · by_cases h3 : role = "editor"
      · subst h3; cases kt <;> decide
      · by_cases h4 : role = "researcher"
        · subst h4; cases kt <;> decide
        · simp [getAccessibleTypes, canAccessKnowledge, knowledgePerms,
            h1, h2, h3, h4]

/-- C5: the path heuristic assigns BRAND_FOUNDATION to paths with a `brand`
component containing the substring `brand-foundation`; PERSONAS to other
paths with a `brand` component; then WRITING_EXAMPLES on an `examples`
component; then TEMPLATES on a `templates` component; then USER_PREFERENCES
on the substring `user_preference`; and CONTEXTUAL otherwise. -/
theorem determine_knowledge_type_cases (p : String) :
    (determineKnowledgeType p = .brandFoundation ↔
      "brand" ∈ pathParts p ∧ strSub "brand-foundation" p = true) ∧
    (determineKnowledgeType p = .personas ↔
      "brand" ∈ pathParts p ∧ strSub "brand-foundation" p = false) ∧
    (determineKnowledgeType p = .writingExamples ↔
      "brand" ∉ pathParts p ∧ "examples" ∈ pathParts p) ∧
    (determineKnowledgeType p = .templates ↔
      "brand" ∉ pathParts p ∧ "examples" ∉ pathParts p ∧
      "templates" ∈ pathParts p) ∧
    (determineKnowledgeType p = .userPreferences ↔
      "brand" ∉ pathParts p ∧ "examples" ∉ pathParts p ∧
      "templates" ∉ pathParts p ∧ strSub "user_preference" p = true) ∧
    (determineKnowledgeType p = .contextual ↔
      "brand" ∉ pathParts p ∧ "examples" ∉ pathParts p ∧
      "templates" ∉ pathParts p ∧ strSub "user_preference" p = false) := by
  by_cases hb : "brand" ∈ pathParts p <;>
  rcases Bool.eq_false_or_eq_true (strSub "brand-foundation" p) with hf | hf <;>
  by_cases he : "examples" ∈ pathParts p <;>
  by_cases ht : "templates" ∈ pathParts p <;>
  rcases Bool.eq_false_or_eq_true (strSub "user_preference" p) with hu | hu <;>
  simp [determineKnowledgeType, hb, hf, he, ht, hu]

/-- Witness for C5: a brand-foundation path classifies as BRAND_FOUNDATION. -/
theorem determine_knowledge_type_cases_witness :
    determineKnowledgeType "knowledge/brand/brand-foundation.md" =
      KnowledgeType.brandFoundation :=
  (determine_knowledge_type_cases "knowledge/brand/brand-foundation.md").1.mpr
    (by constructor <;> decide)

/-- C6: with default type/tag filters, `search_knowledge` returns only
non-archived items of types the role may read whose lowercased title or
content contains the lowercased query, silently excluding unreadable types,
and returns at most `limit` items. -/
theorem search_knowledge_sound (role query : String) (limit : Nat)
    (items : List KnowledgeItem) :
    (∀ item ∈ searchKnowledge items role query none [] limit,
      item.status ≠ .archived ∧
      canAccessKnowledge role item.knowledgeType "read" = true ∧
      (strSub (lowerStr query) (lowerStr item.title) = true ∨
       strSub (lowerStr query) (lowerStr item.content) = true)) ∧
    (searchKnowledge items role query none [] limit).length ≤ limit := by
  constructor
  · intro item hmem
    have hmem1 : item ∈ (items.filter (searchPred role query none [])).insertionSort
        (fun a b => relevanceScore query b ≤ relevanceScore query a) :=
      List.mem_of_mem_take hmem
    have hmem2 : item ∈ items.filter (searchPred role query none []) :=
      (List.mem_insertionSort _).mp hmem1
    have hpred : searchPred role query none [] item = true :=
      (List.mem_filter.mp hmem2).2
    unfold searchPred at hpred
    simp only [Bool.and_eq_true, Bool.or_eq_true, List.isEmpty_nil,
      Bool.true_or, Bool.not_eq_true'] at hpred
    obtain ⟨⟨⟨hacc, harch⟩, -⟩, hquery⟩ := hpred
    refine ⟨?_, ?_, ?_⟩
    · intro hcon
      rw [hcon] at harch
      simp at harch
    · rw [← accessible_eq_read]
      exact hacc
    · exact hquery
  · exact List.length_take_le _ _

/-- Witness for C6 at a concrete writer search hitting one contextual item. -/
theorem search_knowledge_sound_witness :
    sampleKnowledgeItem.status ≠ KnowledgeStatus.archived ∧
    canAccessKnowledge "writer" sampleKnowledgeItem.knowledgeType "read" = true ∧
    (strSub (lowerStr "x") (lowerStr sampleKnowledgeItem.title) = true ∨
     strSub (lowerStr "x") (lowerStr sampleKnowledgeItem.content) = true) :=
  (search_knowledge_sound "writer" "x" 5 [sampleKnowledgeItem]).1
    sampleKnowledgeItem (by decide)

/-- C7: when the context's content requirements give content type `guide`, or
give any content type outside the lookup table (which falls back to the guide
row), the content-structure decision returns the sequential reasoning type
and the `step_by_step` template. -/
theorem guide_structure_decision (ctx : ReasoningContext)
    (h : dictGet ctx.contentRequirements "type" "guide" = "guide" ∨
      contentStructureMatrix (dictGet ctx.contentRequirements "type" "guide") = none) :
    (decideContentStructure ctx).reasoningType = .sequential ∧
    (decideContentStructure ctx).template = "step_by_step" := by
  rcases h with h | h
  · constructor <;> simp [decideContentStructure, h, contentStructureMatrix]
  · constructor <;> simp [decideContentStructure, h]

/-- Witness for C7 at a context explicitly requesting a guide. -/
theorem guide_structure_decision_witness :
    (decideContentStructure ⟨[("type", "guide")], []⟩).reasoningType =
      ReasoningType.sequential ∧
    (decideContentStructure ⟨[("type", "guide")], []⟩).template = "step_by_step" :=
  guide_structure_decision ⟨[("type", "guide")], []⟩ (Or.inl (by decide))

/-- C4: for configured roles, reads are permitted at every level, writes at
READ_WRITE or ADMIN, admin only at ADMIN; `store_memory` raises
PermissionError exactly when the role lacks write access, and the raise
happens before any mutation, leaving every bucket unchanged. -/
theorem memory_access_and_store_permission :
    (∀ role ∈ matrixRoles, ∀ mt : MemoryType, ∀ lvl : MemoryAccessLevel,
      accessLevelOf role mt = some lvl →
      (canAccess role mt "read" =
        (lvl == .readOnly || lvl == .readWrite || lvl == .adminLevel)) ∧
      (canAccess role mt "write" = (lvl == .readWrite || lvl == .adminLevel)) ∧
      (canAccess role mt "admin" = (lvl == .adminLevel))) ∧
    (∀ (now : Int) (newId : Nat) (role : String) (mt : MemoryType)
        (content : MemoryContent) (tags : List String) (importance : Int)
        (mems : Memories),
      ((storeMemory now newId role mt content tags importance mems).1 =
          .error "PermissionError" ↔ canAccess role mt "write" = false) ∧
      (canAccess role mt "write" = false →
        (storeMemory now newId role mt content tags importance mems).2 = mems)) := by
  constructor
  · intro role hrole
    fin_cases hrole <;> decide
  · intro now newId role mt content tags importance mems
    rcases Bool.eq_false_or_eq_true (canAccess role mt "write") with hw | hw
    · constructor
      · simp [storeMemory, hw]
      · intro hcontra
        rw [hw] at hcontra
        exact absurd hcontra (by simp)
    · constructor
      · simp [storeMemory, hw]
      · intro _; simp [storeMemory, hw]

/-- Witness for C4: a researcher may not write to the crew-shared bucket and
a failing store leaves the store untouched. -/
theorem memory_access_and_store_permission_witness :
    canAccess "researcher" MemoryType.crewShared "write" = false ∧
    (storeMemory 0 0 "researcher" MemoryType.crewShared (.user "x") [] 5
      emptyMemories).2 = emptyMemories := by
  have h1 := (memory_access_and_store_permission.1 "researcher" (by decide)
    MemoryType.crewShared .readOnly (by decide)).2.1
  have h1' : canAccess "researcher" MemoryType.crewShared "write" = false := by
    simpa using h1
  exact ⟨h1', (memory_access_and_store_permission.2 0 0 "researcher"
    MemoryType.crewShared (.user "x") [] 5 emptyMemories).2 h1'⟩

/-- C10: a role outside the configured matrix can access nothing, so its
stores raise PermissionError without mutating any bucket and its retrievals
raise PermissionError, for every target bucket. -/
theorem unknown_role_denied (role : String) (h : role ∉ matrixRoles) :
    ∀ mt : MemoryType,
      (∀ op : String, canAccess role mt op = false) ∧
      (∀ (now : Int) (newId : Nat) (content : MemoryContent)
          (tags : List String) (importance : Int) (mems : Memories),
        (storeMemory now newId role mt content tags importance mems).1 =
          .error "PermissionError" ∧
        (storeMemory now newId role mt content tags importance mems).2 = mems) ∧
      (∀ (query : Option String) (tags : List String) (limit : Nat)
          (mems : Memories),
        retrieveMemory role mt query tags limit mems =
          .error "PermissionError") := by
  simp only [matrixRoles, List.mem_cons, List.not_mem_nil, or_false,
    not_or] at h
  obtain ⟨h1, h2, h3, h4⟩ := h
  have hm : memoryAccessMatrix role = none := by
    simp [memoryAccessMatrix, h1, h2, h3, h4]
  have hc : ∀ (mt : MemoryType) (op : String), canAccess role mt op = false := by
    intro mt op; simp [canAccess, hm]
  intro mt
  refine ⟨hc mt, ?_, ?_⟩
  · intro now newId content tags importance mems
    constructor <;> simp [storeMemory, hc mt "write"]
  · intro query tags limit mems
    simp [retrieveMemory, hc mt "read"]

/-- Witness for C10 at the unconfigured role `intruder`. -/
theorem unknown_role_denied_witness :
    canAccess "intruder" MemoryType.crewShared "read" = false ∧
    retrieveMemory "intruder" MemoryType.crewShared none [] 10 emptyMemories =
      .error "PermissionError" :=
  ⟨(unknown_role_denied "intruder" (by decide) MemoryType.crewShared).1 "read",
   (unknown_role_denied "intruder" (by decide) MemoryType.crewShared).2.2
     none [] 10 emptyMemories⟩

/-- C1 counterexample: storing the 101st entry into a bucket of 100 stale
identically-tagged entries exceeds the auto-consolidation threshold, yet the
bucket afterwards still holds 101 separate records with at least two sharing
an identical tag set, and contains no summary record: the threshold-triggered
path marks candidates but never merges. -/
theorem auto_consolidate_no_merge_cex :
    autoConsolidateThreshold <
      (((storeMemory 10000000 100 "writer" MemoryType.crewShared
        (.user "new") ["similar"] 3 fullMemories).2) MemoryType.crewShared).length ∧
    (((storeMemory 10000000 100 "writer" MemoryType.crewShared
        (.user "new") ["similar"] 3 fullMemories).2) MemoryType.crewShared).length = 101 ∧
    2 ≤ ((((storeMemory 10000000 100 "writer" MemoryType.crewShared
        (.user "new") ["similar"] 3 fullMemories).2) MemoryType.crewShared).filter
        (fun m => m.tags == ["similar"])).length ∧
    (((storeMemory 10000000 100 "writer" MemoryType.crewShared
        (.user "new") ["similar"] 3 fullMemories).2) MemoryType.crewShared).countP
      (fun m => m.tags.contains "consolidated" ||
        m.agentId == "system_consolidation") = 0 := by
  decide

/-- C1 amended: when a store pushes a bucket past the auto-consolidation
threshold, the threshold-triggered pass only flags entries older than the
consolidation interval with importance below the importance threshold as
consolidation candidates; it changes no other field and neither merges nor
removes any record, leaving the appended bucket one entry longer. -/
theorem store_over_threshold_marks_candidates (now : Int) (newId : Nat)
    (role : String) (mt : MemoryType) (content : MemoryContent)
    (tags : List String) (importance : Int) (mems : Memories)
    (hw : canAccess role mt "write" = true)
    (hth : autoConsolidateThreshold < (mems mt).length + 1) :
    (storeMemory now newId role mt content tags importance mems).2 mt =
      ((mems mt) ++ [mkStoredEntry now newId role mt content tags importance]).map
        (autoMark now) ∧
    ((storeMemory now newId role mt content tags importance mems).2 mt).length =
      (mems mt).length + 1 ∧
    (∀ m : MemoryEntry,
      (autoMark now m).id = m.id ∧ (autoMark now m).timestamp = m.timestamp ∧
      (autoMark now m).agentId = m.agentId ∧
      (autoMark now m).content = m.content ∧
      (autoMark now m).tags = m.tags ∧
      (autoMark now m).importance = m.importance ∧
      ((autoMark now m).consolidationCandidate = true ↔
        (m.consolidationCandidate = true ∨
          (m.timestamp < now - consolidationIntervalSeconds ∧
           m.importance < importanceThreshold)))) := by
  have hlen : autoConsolidateThreshold <
      ((mems mt) ++ [mkStoredEntry now newId role mt content tags importance]).length := by
    simpa using hth
  have hstore : (storeMemory now newId role mt content tags importance mems).2 mt =
      autoConsolidate now
        ((mems mt) ++ [mkStoredEntry now newId role mt content tags importance]) := by
    simp only [storeMemory, hw, Bool.not_true, Bool.false_eq_true, if_false]
    rw [if_pos hlen]
    simp [updateBucket]
  refine ⟨?_, ?_, ?_⟩
  · rw [hstore]; rfl
  · rw [hstore]; simp [autoConsolidate]
  · intro m
    unfold autoMark
    split
    · rename_i hcond
      refine ⟨rfl, rfl, rfl, rfl, rfl, rfl, ?_⟩
      simp [hcond]
    · rename_i hcond
      refine ⟨rfl, rfl, rfl, rfl, rfl, rfl, ?_⟩
      constructor
      · exact fun hx => Or.inl hx
      · rintro (hx | hx)
        · exact hx
        · exact absurd hx hcond

/-- Witness for the amended C1: the concrete 101st store leaves the bucket
exactly one entry longer. -/
theorem store_over_threshold_marks_candidates_witness :
    ((storeMemory 10000000 100 "writer" MemoryType.crewShared
        (.user "new") ["similar"] 3 fullMemories).2 MemoryType.crewShared).length =
      (fullMemories MemoryType.crewShared).length + 1 :=
  (store_over_threshold_marks_candidates 10000000 100 "writer"
    MemoryType.crewShared (.user "new") ["similar"] 3 fullMemories
    (by decide) (by decide)).2.1

/-- Joining the groups after one insertion permutes the old join plus the
inserted entry. -/
theorem insertGrouped_flatMap_perm (k : List String) (m : MemoryEntry) :
    ∀ acc : List (List String × List MemoryEntry),
      ((insertGrouped k m acc).flatMap Prod.snd).Perm
        ((acc.flatMap Prod.snd) ++ [m]) := by
  intro acc
  induction acc with
  | nil => simp [insertGrouped]
  | cons p0 rest ih =>
    obtain ⟨k', g⟩ := p0
    by_cases h : k = k'
    · simp only [insertGrouped, if_pos h, List.flatMap_cons]
      have p1 : (g ++ ([m] ++ rest.flatMap Prod.snd)).Perm
          (g ++ (rest.flatMap Prod.snd ++ [m])) :=
        List.Perm.append_left g List.perm_append_comm
      simpa [List.append_assoc] using p1
    · simp only [insertGrouped, if_neg h, List.flatMap_cons]
      have p1 : (g ++ (insertGrouped k m rest).flatMap Prod.snd).Perm
          (g ++ (rest.flatMap Prod.snd ++ [m])) := List.Perm.append_left g ih
      simpa [List.append_assoc] using p1

/-- Joining the grouping fold's result permutes the accumulated join plus the
remaining entries. -/
theorem groupByTagsAux_flatMap_perm (l : List MemoryEntry) :
    ∀ acc, ((groupByTagsAux acc l).flatMap Prod.snd).Perm
      ((acc.flatMap Prod.snd) ++ l) := by
  induction l with
  | nil => intro acc; simp [groupByTagsAux]
  | cons m rest ih =>
    intro acc
    have h1 := ih (insertGrouped (sortTags m.tags) m acc)
    have h2 := (insertGrouped_flatMap_perm (sortTags m.tags) m acc).append_right rest
    have h3 := h1.trans h2
    simpa [groupByTagsAux, List.append_assoc] using h3

/-- The grouping of `_consolidate_similar_memories` loses and duplicates no
entries. -/
theorem groupByTags_flatMap_perm (mems : List MemoryEntry) :
    ((groupByTags mems).flatMap Prod.snd).Perm mems := by
  have h := groupByTagsAux_flatMap_perm mems []
  simpa [groupByTags] using h

/-- Inserting into the grouping keeps the key list, extending it only when
the key is new. -/
theorem insertGrouped_keys (k : List String) (m : MemoryEntry) :
    ∀ acc : List (List String × List MemoryEntry),
      (insertGrouped k m acc).map Prod.fst =
        if k ∈ acc.map Prod.fst then acc.map Prod.fst
        else acc.map Prod.fst ++ [k] := by
  intro acc
  induction acc with
  | nil => simp [insertGrouped]
  | cons p0 rest ih =>
    obtain ⟨k', g⟩ := p0
    by_cases h : k = k'
    · simp [insertGrouped, h]
    · by_cases hk : k ∈ rest.map Prod.fst
      · simp [insertGrouped, h, ih, hk]
      · simp [insertGrouped, h, ih, hk]

/-- Insertion preserves distinctness of group keys. -/
theorem groupKeys_nodup_insert (k : List String) (m : MemoryEntry)
    (acc : List (List String × List MemoryEntry))
    (h : (acc.map Prod.fst).Nodup) :
    ((insertGrouped k m acc).map Prod.fst).Nodup := by
  rw [insertGrouped_keys]
  by_cases hk : k ∈ acc.map Prod.fst
  · rw [if_pos hk]; exact h
  · rw [if_neg hk]
    refine List.nodup_append.mpr ⟨h, List.nodup_singleton k, ?_⟩
    intro a ha hb
    simp at hb
    subst hb
    exact hk ha

/-- The grouping fold keeps group keys distinct. -/
theorem groupByTagsAux_keys_nodup (l : List MemoryEntry) :
    ∀ acc, (acc.map Prod.fst).Nodup →
      ((groupByTagsAux acc l).map Prod.fst).Nodup := by
  induction l with
  | nil => intro acc h; exact h
  | cons m rest ih =>
    intro acc h
    exact ih _ (groupKeys_nodup_insert (sortTags m.tags) m acc h)

/-- Insertion preserves well-formed groups when the entry's sorted tag list
is the insertion key. -/
theorem insertGrouped_good (k : List String) (m : MemoryEntry)
    (hm : sortTags m.tags = k) :
    ∀ acc, GoodGroups acc → GoodGroups (insertGrouped k m acc) := by
  intro acc
  induction acc with
  | nil =>
    intro _ p hp
    simp only [insertGrouped, List.mem_singleton] at hp
    subst hp
    refine ⟨by simp, ?_⟩
    intro x hx
    simp only [List.mem_singleton] at hx
    subst hx
    exact hm
  | cons p0 rest ih =>
    obtain ⟨k', g⟩ := p0
    intro hacc
    have hrest : GoodGroups rest := fun p hp => hacc p (List.mem_cons_of_mem _ hp)
    have hhead := hacc (k', g) (List.mem_cons_self _ _)
    by_cases h : k = k'
    · intro p hp
      simp only [insertGrouped, if_pos h] at hp
      rcases List.mem_cons.mp hp with hp | hp
      · subst hp
        refine ⟨by simp, ?_⟩
        intro x hx
        rcases List.mem_append.mp hx with hx | hx
        · exact hhead.2 x hx
        · simp only [List.mem_singleton] at hx
          subst hx
          rw [hm, h]
      · exact hrest p hp
    · intro p hp
      simp only [insertGrouped, if_neg h] at hp
      rcases List.mem_cons.mp hp with hp | hp
      · subst hp
        exact hhead
      · exact ih hrest p hp

/-- The grouping fold preserves well-formed groups. -/
theorem groupByTagsAux_good (l : List MemoryEntry) :
    ∀ acc, GoodGroups acc → GoodGroups (groupByTagsAux acc l) := by
  induction l with
  | nil => intro acc h; exact h
  | cons m rest ih =>
    intro acc h
    exact ih _ (insertGrouped_good (sortTags m.tags) m rfl acc h)

/-- The importance fold never drops below its initial value. -/
theorem foldl_max_ge_init (l : List MemoryEntry) :
    ∀ a : Int, a ≤ l.foldl (fun acc x => max acc x.importance) a := by
  induction l with
  | nil => intro a; simp
  | cons y rest ih =>
    intro a
    exact le_trans (le_max_left a y.importance) (ih (max a y.importance))

/-- The importance fold dominates every member's importance. -/
theorem foldl_max_ge_mem (l : List MemoryEntry) :
    ∀ a : Int, ∀ x ∈ l,
      x.importance ≤ l.foldl (fun acc x => max acc x.importance) a := by
  induction l with
  | nil => intro a x hx; simp at hx
  | cons y rest ih =>
    intro a x hx
    rcases List.mem_cons.mp hx with hx | hx
    · subst hx
      exact le_trans (le_max_right a x.importance) (foldl_max_ge_init rest _)
    · exact ih _ x hx

/-- The importance fold returns its initial value or some member's
importance. -/
theorem foldl_max_attained (l : List MemoryEntry) :
    ∀ a : Int, l.foldl (fun acc x => max acc x.importance) a = a ∨
      ∃ x ∈ l, l.foldl (fun acc x => max acc x.importance) a = x.importance := by
  induction l with
  | nil => intro a; left; rfl
  | cons y rest ih =>
    intro a
    simp only [List.foldl_cons]
    rcases ih (max a y.importance) with h | ⟨x, hx, h⟩
    · rcases le_total a y.importance with hle | hle
      · right
        exact ⟨y, List.mem_cons_self _ _, by rw [h, max_eq_right hle]⟩
      · left
        rw [h, max_eq_left hle]
    · right
      exact ⟨x, List.mem_cons_of_mem _ hx, h⟩

/-- On a non-empty group, `maxImportance` is the maximum member importance. -/
theorem maxImportance_spec (l : List MemoryEntry) (hne : l ≠ []) :
    (∀ x ∈ l, x.importance ≤ maxImportance l) ∧
    ∃ x ∈ l, maxImportance l = x.importance := by
  cases l with
  | nil => exact absurd rfl hne
  | cons y rest =>
    constructor
    · intro x hx
      rcases List.mem_cons.mp hx with hx | hx
      · subst hx
        exact foldl_max_ge_init rest _
      · exact foldl_max_ge_mem rest _ x hx
    · rcases foldl_max_attained rest y.importance with h | ⟨x, hx, h⟩
      · exact ⟨y, List.mem_cons_self _ _, h⟩
      · exact ⟨x, List.mem_cons_of_mem _ hx, h⟩

/-- Counting over the joined groups sums the per-group counts. -/
theorem flatMap_snd_countP (q : MemoryEntry → Bool) :
    ∀ gs : List (List String × List MemoryEntry),
      (gs.flatMap Prod.snd).countP q =
        (gs.map (fun p => p.2.countP q)).sum := by
  intro gs
  induction gs with
  | nil => rfl
  | cons p rest ih =>
    simp only [List.flatMap_cons, List.countP_append, List.map_cons,
      List.sum_cons, ih]

/-- C3: consolidation partitions the candidates by sorted tag list (tag sets
compared order-insensitively); every group of two or more identically-tagged
candidates is replaced by exactly one summary record carrying the maximum
group importance and the shared tags plus `consolidated`, while every
candidate whose tag set no other candidate shares is kept unchanged. -/
theorem consolidate_partitions_by_tagset (now : Int) (newId : Nat)
    (cands : List MemoryEntry) :
    ∃ gs : List (List String × List MemoryEntry),
      ((gs.flatMap Prod.snd).Perm cands) ∧
      ((gs.map Prod.fst).Nodup) ∧
      GoodGroups gs ∧
      (consolidateSimilarMemories now newId cands =
        gs.flatMap (fun g =>
          if 1 < g.2.length then [mkConsolidated now newId g.1 g.2] else g.2)) ∧
      (∀ g ∈ gs, 1 < g.2.length →
        (mkConsolidated now newId g.1 g.2).tags = g.1 ++ ["consolidated"] ∧
        (∀ x ∈ g.2,
          x.importance ≤ (mkConsolidated now newId g.1 g.2).importance) ∧
        (∃ x ∈ g.2,
          (mkConsolidated now newId g.1 g.2).importance = x.importance)) ∧
      (∀ m ∈ cands,
        cands.countP (fun x => sortTags x.tags == sortTags m.tags) = 1 →
        m ∈ consolidateSimilarMemories now newId cands) := by
  have hgoodnil : GoodGroups ([] : List (List String × List MemoryEntry)) := by
    intro p hp
    simp at hp
  have hgood : GoodGroups (groupByTags cands) :=
    groupByTagsAux_good cands [] hgoodnil
  refine ⟨groupByTags cands, groupByTags_flatMap_perm cands,
    groupByTagsAux_keys_nodup cands [] (by simp), hgood, rfl, ?_, ?_⟩
  · intro g hg hlen
    have hne : g.2 ≠ [] := (hgood g hg).1
    refine ⟨rfl, ?_, ?_⟩
    · intro x hx
      exact (maxImportance_spec g.2 hne).1 x hx
    · exact (maxImportance_spec g.2 hne).2
  · intro m hm hcount
    set q : MemoryEntry → Bool :=
      fun x => sortTags x.tags == sortTags m.tags with hq
    have hperm := groupByTags_flatMap_perm cands
    have hmem : m ∈ (groupByTags cands).flatMap Prod.snd :=
      hperm.mem_iff.mpr hm
    obtain ⟨p, hp, hmp⟩ := List.mem_flatMap.mp hmem
    have hpgood := hgood p hp
    have hkey : p.1 = sortTags m.tags := (hpgood.2 m hmp).symm
    have hall : ∀ x ∈ p.2, q x = true := by
      intro x hx
      have hx' := hpgood.2 x hx
      simp only [hq, beq_iff_eq]
      rw [hx', hkey]
    have hplen : p.2.countP q = p.2.length := List.countP_eq_length.mpr hall
    have hsum : ((groupByTags cands).flatMap Prod.snd).countP q =
        cands.countP q := hperm.countP_eq q
    have hle : p.2.countP q ≤ cands.countP q := by
      rw [← hsum, flatMap_snd_countP]
      exact List.le_sum_of_mem (List.mem_map_of_mem _ hp)
    have hone : p.2.length = 1 := by
      have h2 : p.2.countP q ≤ 1 := by rw [← hcount]; exact hle
      have h3 : 0 < p.2.length := List.length_pos.mpr (List.ne_nil_of_mem hmp)
      omega
    obtain ⟨a, ha⟩ := List.length_eq_one.mp hone
    have ham : m = a := by
      rw [ha] at hmp
      simpa using hmp
    subst ham
    show m ∈ (groupByTags cands).flatMap (fun g =>
      if 1 < g.2.length then [mkConsolidated now newId g.1 g.2] else g.2)
    refine List.mem_flatMap.mpr ⟨p, hp, ?_⟩
    have hnot : ¬(1 < p.2.length) := by rw [hone]; omega
    rw [if_neg hnot]
    exact hmp

/-- Witness for C3: the uniquely-tagged candidate survives consolidation of a
mixed candidate list unchanged. -/
theorem consolidate_partitions_by_tagset_witness :
    uniqueTagEntry ∈
      consolidateSimilarMemories 0 9 [dupEntryA, dupEntryB, uniqueTagEntry] := by
  obtain ⟨gs, -, -, -, -, -, hkeep⟩ :=
    consolidate_partitions_by_tagset 0 9 [dupEntryA, dupEntryB, uniqueTagEntry]
  exact hkeep uniqueTagEntry (by decide) (by decide)

/-- C8: the ethics validator emits the clustered MEDIUM-severity warning
exactly when at least one ethical keyword pattern matches and all match
start positions fall into fewer than two distinct thirds of the content. -/
theorem ethics_cluster_warning (content : String) :
    ((validateEthicalIntegration content).countP
        (fun i => i.message == clusterMessage) =
      if ethicalMentionStarts content ≠ [] ∧
          ((ethicalMentionStarts content).map
            (fun s => 3 * s / content.data.length)).dedup.length < 2
        then 1 else 0) ∧
    (∀ i ∈ validateEthicalIntegration content,
      i.message = clusterMessage →
      i.severity = .medium ∧ i.status = .warning) := by
  have hsplit : validateEthicalIntegration content =
      (if (ethicalMentions content).isEmpty then [noEthicsIssue] else []) ++
      (afterthoughtPatterns.flatMap (fun p =>
        (findMatches p (content.data.map Char.toLower)).map
          (fun _ => afterthoughtIssue))) ++
      (if !(ethicalMentions content).isEmpty &&
          decide (((ethicalMentions content).map
            (fun s => 3 * s.1 / (content.data.map Char.toLower).length)).dedup.length < 2)
        then [clusteredIssue] else []) := rfl
  have hlencl : (content.data.map Char.toLower).length = content.data.length :=
    List.length_map _ _
  have hmapeq : ((ethicalMentions content).map
      (fun s => 3 * s.1 / (content.data.map Char.toLower).length)) =
      ((ethicalMentionStarts content).map
        (fun s => 3 * s / content.data.length)) := by
    rw [hlencl,
      show ethicalMentionStarts content = (ethicalMentions content).map Prod.fst
        from rfl,
      List.map_map]
    rfl
  have hcond : (!(ethicalMentions content).isEmpty &&
      decide (((ethicalMentions content).map
        (fun s => 3 * s.1 / (content.data.map Char.toLower).length)).dedup.length < 2)) = true ↔
      (ethicalMentionStarts content ≠ [] ∧
       ((ethicalMentionStarts content).map
         (fun s => 3 * s / content.data.length)).dedup.length < 2) := by
    rw [hmapeq]
    simp only [Bool.and_eq_true, Bool.not_eq_true', decide_eq_true_eq]
    constructor
    · rintro ⟨h1, h2⟩
      refine ⟨?_, h2⟩
      intro hng
      have hmn : ethicalMentions content = [] := List.map_eq_nil_iff.mp hng
      rw [hmn] at h1
      simp at h1
    · rintro ⟨h1, h2⟩
      refine ⟨?_, h2⟩
      cases h : ethicalMentions content with
      | nil =>
        exact absurd (by rw [show ethicalMentionStarts content =
          (ethicalMentions content).map Prod.fst from rfl, h]; rfl) h1
      | cons a l => rfl
  have hmiss : (if (ethicalMentions content).isEmpty then [noEthicsIssue]
      else []).countP (fun i => i.message == clusterMessage) = 0 := by
    split
    · decide
    · rfl
  have hafter : (afterthoughtPatterns.flatMap (fun p =>
      (findMatches p (content.data.map Char.toLower)).map
        (fun _ => afterthoughtIssue))).countP
      (fun i => i.message == clusterMessage) = 0 := by
    rw [List.countP_eq_zero]
    intro i hi
    obtain ⟨p, -, hi⟩ := List.mem_flatMap.mp hi
    obtain ⟨x, -, rfl⟩ := List.mem_map.mp hi
    decide
  constructor
  · rw [hsplit, List.countP_append, List.countP_append, hmiss, hafter]
    simp only [Nat.zero_add]
    by_cases hc : ethicalMentionStarts content ≠ [] ∧
        ((ethicalMentionStarts content).map
          (fun s => 3 * s / content.data.length)).dedup.length < 2
    · rw [if_pos hc, hcond.mpr hc]
      decide
    · rw [if_neg hc]
      rcases Bool.eq_false_or_eq_true (!(ethicalMentions content).isEmpty &&
        decide (((ethicalMentions content).map
          (fun s => 3 * s.1 / (content.data.map Char.toLower).length)).dedup.length < 2))
        with h | h
      · exact absurd (hcond.mp h) hc
      · rw [h]; rfl
  · intro i hi hmsg
    rw [hsplit] at hi
    rcases List.mem_append.mp hi with hi | hi
    · rcases List.mem_append.mp hi with hi | hi
      · by_cases hm : (ethicalMentions content).isEmpty = true
        · rw [if_pos hm] at hi
          simp only [List.mem_singleton] at hi
          subst hi
          exact absurd hmsg (by decide)
        · rw [if_neg hm] at hi
          simp at hi
      · obtain ⟨p, -, hi⟩ := List.mem_flatMap.mp hi
        obtain ⟨x, -, rfl⟩ := List.mem_map.mp hi
        exact absurd hmsg (by decide)
    · split at hi
      · simp only [List.mem_singleton] at hi
        subst hi
        exact ⟨rfl, rfl⟩
      · simp at hi

/-- Witness for C8: a lone `bias` mention clusters in the first third and
emits exactly one clustered warning. -/
theorem ethics_cluster_warning_witness :
    (validateEthicalIntegration "bias").countP
      (fun i => i.message == clusterMessage) = 1 := by
  rw [(ethics_cluster_warning "bias").1]
  decide

end SoylentRed
